import Mathlib

/-!
Verification of the InkyPi `solaredge` plugin's data-selection and
formatting logic (`src/plugins/solaredge/solar_base.py` and
`src/plugins/solaredge/solaredge.py`).

Modelling conventions:
* Python floats are modelled as rationals (`ℚ`); `round(x, n)` and the
  `:.Nf` format specifier round half to even, as CPython does on exact
  values.
* The parallel JSON arrays `unix_seconds` / `price` (resp. `ren_share`)
  are kept as two lists, zipped into a list of pairs at the point where
  the Python code iterates them in parallel.
* `datetime` values compared and formatted in a timezone are modelled by
  their unix timestamp (`Int`) plus an explicit offset function
  `tzOffset : Int → Int` giving the UTC offset (in seconds) in force at a
  given instant; `dt <= now` on aware datetimes is timestamp comparison.
* The Python `settings` dict is a lookup function `String → Option String`
  (`settings.get k` returning `None` for a missing key).
* HTTP fetch outcomes are an explicit `FetchOutcome` sum: the three
  exception classes caught by the fetchers (`requests.exceptions.Timeout`,
  `requests.exceptions.RequestException`, `ValueError` from JSON parsing)
  and success carrying the decoded body.
* The Python keyword-clashing dict key `"show"` is modelled as the field
  `show_field`.
-/

/-- Outcome of an HTTP fetch: the three error classes caught by the
fetchers in `solar_base.py`, or a successfully decoded JSON body. -/
inductive FetchOutcome (α : Type) where
  | timeout
  | transportError
  | malformedJson
  | success (data : α)

/-- JSON body of the Energy-Charts `/price` endpoint, as consumed by
`fetch_price_data` (fields `license_info`, `unix_seconds`, `price`,
`unit`, `deprecated`). -/
structure PriceApiData where
  license_info : String
  unix_seconds : List Int
  price : List (Option ℚ)
  unit : String
  deprecated : Bool
deriving DecidableEq

/-- JSON body of the Energy-Charts `/ren_share_forecast` endpoint, as
consumed by `fetch_renewable_share_forecast`. -/
structure RenApiData where
  unix_seconds : List Int
  ren_share : List (Option ℚ)
deriving DecidableEq

/-- Python `round`-to-integer: round half to even, on exact rationals. -/
def roundHalfEven (q : ℚ) : Int :=
  let f : Int := ⌊q⌋
  let r : ℚ := q - f
  if r < 1/2 then f
  else if 1/2 < r then f + 1
  else if f % 2 = 0 then f else f + 1

/-- Python `round(q, 2)` on exact rationals. -/
def round2 (q : ℚ) : ℚ :=
  (roundHalfEven (q * 100) : ℚ) / 100

/-- Zero-pad a digit string on the left to width `d`
(for the fractional part of a fixed-point format). -/
def padZeros (s : String) (d : Nat) : String :=
  ⟨List.replicate (d - s.length) '0'⟩ ++ s

/-- Python fixed-point formatting of a float with `d` decimals
(the format specifier `:.df`), on exact rationals: round half to even at
the `d`-th decimal, then print sign, integer part, '.', and the
zero-padded fractional digits. -/
def formatFixed (q : ℚ) (d : Nat) : String :=
  let scaled : Int := roundHalfEven (q * ((10 : ℚ) ^ d))
  let an : Nat := scaled.natAbs
  let ip : Nat := an / 10 ^ d
  let fp : Nat := an % 10 ^ d
  (if scaled < 0 then "-" else "") ++ toString ip ++ "." ++ padZeros (toString fp) d

/-- Two-digit zero-padded decimal, as used by `strftime` fields. -/
def pad2 (n : Nat) : String :=
  if n < 10 then "0" ++ toString n else toString n

/-- Hour and minute of a unix timestamp `ts` in the timezone described by
the offset function `tzOffset` (UTC offset in seconds at instant `ts`),
modelling `datetime.fromtimestamp(ts, tz)`. -/
def localHM (tzOffset : Int → Int) (ts : Int) : Nat × Nat :=
  let sod : Nat := ((ts + tzOffset ts) % 86400).toNat
  (sod / 3600, sod % 3600 / 60)

/-- `strftime("%H:%M")` on an (hour, minute) pair. -/
def formatHM (hm : Nat × Nat) : String :=
  pad2 hm.1 ++ ":" ++ pad2 hm.2

/-- A Python value as seen by `replace_decimals` in `solaredge.py`:
either a string or some non-string value (number or None). -/
inductive PyVal where
  | str (s : String)
  | int (n : Int)
  | float (q : ℚ)
  | pynone
deriving DecidableEq

/-- Python `s.replace(".", sign)` at character level: substitute the
characters of `sign` for every '.' (single-character needle, so every
occurrence is substituted independently). -/
def replaceDotChars (sign : List Char) : List Char → List Char
  | [] => []
  | c :: cs =>
    if c = '.' then sign ++ replaceDotChars sign cs
    else c :: replaceDotChars sign cs

/-- `s.replace(".", sign)` on strings. -/
def replaceDecStr (sign : String) (s : String) : String :=
  ⟨replaceDotChars sign.data s.data⟩

/-- The inner helper `replace_decimals` of `Solaredge.parse_solar_data`
(`solaredge.py` lines 79-82): on a string, substitute "." with the
captured decimal sign; any non-string input is returned unchanged. -/
def replace_decimals (sign : String) : PyVal → PyVal
  | .str s => .str (replaceDecStr sign s)
  | v => v

/-- The `descimalSign` local of `Solaredge.parse_solar_data`
(`solaredge.py` lines 49-56): "," for country "de", "." otherwise. -/
def descimalSign (country : String) : String :=
  if country = "de" then "," else "."

/-- State of the selection loop in `SolarBase.get_dap_data`
(`solar_base.py` lines 45-48): the four local variables
`current_price`, `current_time`, `next_price`, `next_time`. -/
structure ScanState where
  current_price : Option ℚ
  current_time : Option Int
  next_price : Option ℚ
  next_time : Option Int
deriving DecidableEq

/-- The all-`None` initial state of the selection loop. -/
def initScan : ScanState := ⟨none, none, none, none⟩

/-- The selection loop of `SolarBase.get_dap_data` (`solar_base.py`
lines 50-60) over the zipped `(timestamp, price)` series:
if `dt <= now`, overwrite `current_price`/`current_time`;
elif `current_price is not None and next_price is None`, set
`next_price`/`next_time` and `break`; else continue. -/
def dapScan (now : Int) : ScanState → List (Int × Option ℚ) → ScanState
  | st, [] => st
  | st, e :: rest =>
    if e.1 ≤ now then
      dapScan now ⟨e.2, some e.1, st.next_price, st.next_time⟩ rest
    else if st.current_price.isSome && st.next_price.isNone then
      ⟨st.current_price, st.current_time, e.2, some e.1⟩
    else
      dapScan now st rest

/-- The condition of the fallback branch in `SolarBase.get_dap_data`
(`solar_base.py` line 63): `current_price is None and len(prices) > 0`
after the selection loop. -/
def dapFallbackTaken (now : Int) (series : List (Int × Option ℚ)) : Bool :=
  (dapScan now initScan series).current_price.isNone && decide (0 < series.length)

/-- Full current/next selection of `SolarBase.get_dap_data`
(`solar_base.py` lines 50-68): run the loop, then — if no current price
was found and the series is non-empty — fall back to the first entry as
current and the second (if present) as next. -/
def selectPrices (now : Int) (series : List (Int × Option ℚ)) : ScanState :=
  let st := dapScan now initScan series
  if dapFallbackTaken now series then
    match series with
    | [] => st
    | e0 :: rest =>
      match rest with
      | [] => ⟨e0.2, some e0.1, st.next_price, st.next_time⟩
      | e1 :: _ => ⟨e0.2, some e0.1, e1.2, some e1.1⟩
  else st

/-- The dictionary returned by `SolarBase.get_dap_data`; the Python key
`"show"` is the field `show_field`. -/
structure DapResult where
  show_field : Bool
  icon : Option String
  currency_symbol : String
  current_time : String
  current_price : String
  next_time : String
  next_price : String
deriving DecidableEq

/-- `SolarBase.get_dap_data` (`solar_base.py` lines 9-90), with the fetch
result passed in (the method itself performs the fetch) and the reference
timezone given as an offset function. Returns the all-"N/A" record when
the fetch failed or either parallel array is empty/missing; otherwise
runs the selection and formats prices (divide by 100, 3 decimals,
decimal-sign substitution, " " + currency symbol appended — also after
"N/A") and times (`%H:%M` in the reference timezone). -/
def get_dap_data (settings : String → Option String) (currency_symbol : String)
    (replace_decimals_func : String → String) (tzOffset : Int → Int) (now : Int)
    (price_data : Option PriceApiData) : DapResult :=
  let showFlag : Bool := settings "showPriceData" == some "true"
  match price_data with
  | none => ⟨showFlag, none, currency_symbol, "N/A", "N/A", "N/A", "N/A"⟩
  | some pd =>
    if pd.price.isEmpty || pd.unix_seconds.isEmpty then
      ⟨showFlag, none, currency_symbol, "N/A", "N/A", "N/A", "N/A"⟩
    else
      let st := selectPrices now (pd.unix_seconds.zip pd.price)
      let current_price_str : String :=
        match st.current_price with
        | some p => replace_decimals_func (formatFixed (p / 100) 3)
        | none => "N/A"
      let next_price_str : String :=
        match st.next_price with
        | some p => replace_decimals_func (formatFixed (p / 100) 3)
        | none => "N/A"
      let current_time_str : String :=
        match st.current_time with
        | some t => formatHM (localHM tzOffset t)
        | none => "N/A"
      let next_time_str : String :=
        match st.next_time with
        | some t => formatHM (localHM tzOffset t)
        | none => "N/A"
      ⟨showFlag, none, currency_symbol, current_time_str,
        current_price_str ++ " " ++ currency_symbol, next_time_str,
        next_price_str ++ " " ++ currency_symbol⟩

/-- `SolarBase.fetch_price_data` (`solar_base.py` lines 191-264), with
the HTTP outcome passed in: on any of the three caught error classes
return `None`; on success, if the `price` list is non-empty, scale every
non-null price by 0.1 (EUR/MWh → Cent/kWh) rounded to 2 decimals and set
`unit` to "Cent / kWh"; null prices stay null. -/
def fetch_price_data (outcome : FetchOutcome PriceApiData) : Option PriceApiData :=
  match outcome with
  | .success data =>
    if data.price.isEmpty then some data
    else
      some { data with
        price := data.price.map (Option.map fun p => round2 (p * (1/10))),
        unit := "Cent / kWh" }
  | _ => none

/-- The selection loop of `SolarBase.fetch_renewable_share_forecast`
(`solar_base.py` lines 166-172) over the zipped `(timestamp, share)`
series, threading the `current_share` accumulator: while `timestamp <=
now`, remember a non-null share; at the first timestamp beyond `now`,
stop. -/
def renScan (now : Int) : Option ℚ → List (Int × Option ℚ) → Option ℚ
  | acc, [] => acc
  | acc, e :: rest =>
    if e.1 ≤ now then
      renScan now (match e.2 with | some x => some x | none => acc) rest
    else acc

/-- `SolarBase.fetch_renewable_share_forecast` (`solar_base.py` lines
129-189), with the HTTP outcome passed in: `None` on any caught error or
when either parallel array is empty/missing; otherwise the loop result
(which is `None` when no non-null share at a timestamp ≤ now exists). -/
def fetch_renewable_share_forecast (now : Int)
    (outcome : FetchOutcome RenApiData) : Option ℚ :=
  match outcome with
  | .success data =>
    if data.unix_seconds.isEmpty || data.ren_share.isEmpty then none
    else renScan now none (data.unix_seconds.zip data.ren_share)
  | _ => none

/-- The dictionary returned by `SolarBase.get_renewable_data`; the
Python key `"show"` is the field `show_field`. -/
structure RenewableResult where
  show_field : Bool
  icon : Option String
  description : String
  percentage : String
deriving DecidableEq

/-- `SolarBase.get_renewable_data` (`solar_base.py` lines 92-127), with
the fetch result passed in: "N/A" when the share is unavailable,
otherwise the share formatted to 1 decimal, decimal-sign substituted when
a replace function is provided, with " %" appended; the `show` flag is
`settings.get('dapCountry') == 'DE-LU'` in every case. -/
def get_renewable_data (settings : String → Option String)
    (replace_decimals_func : Option (String → String)) (description : String)
    (renewable_percentage : Option ℚ) : RenewableResult :=
  let percentage_str : String :=
    match renewable_percentage with
    | none => "N/A"
    | some v =>
      let f0 := formatFixed v 1
      let f1 := match replace_decimals_func with
        | some g => g f0
        | none => f0
      f1 ++ " %"
  ⟨settings "dapCountry" == some "DE-LU", none, description, percentage_str⟩

/-- The loop guard `dt <= now` as a Boolean predicate on series entries. -/
def tsLe (now : Int) : Int × Option ℚ → Bool := fun e => decide (e.1 ≤ now)

theorem replaceDotChars_eq_flatMap (sign : List Char) (cs : List Char) :
    replaceDotChars sign cs = cs.flatMap fun c => if c = '.' then sign else [c] := by
  induction cs with
  | nil => rfl
  | cons c cs ih =>
    rw [List.flatMap_cons, ← ih]
    by_cases h : c = '.'
    · simp [replaceDotChars, h]
    · simp [replaceDotChars, h]

theorem mem_takeWhile_tsLe {now : Int} {l : List (Int × Option ℚ)} :
    ∀ e ∈ l.takeWhile (tsLe now), e.1 ≤ now := by
  intro e he
  have := List.mem_takeWhile_imp he
  exact of_decide_eq_true this

theorem dropWhile_gt_of_sorted {now : Int} {l : List (Int × Option ℚ)}
    (hp : List.Pairwise (· ≤ ·) (l.map Prod.fst)) :
    ∀ e ∈ l.dropWhile (tsLe now), now < e.1 := by
  induction l with
  | nil => simp
  | cons a l ih =>
    rw [List.map_cons, List.pairwise_cons] at hp
    rw [List.dropWhile_cons]
    by_cases h : tsLe now a = true
    · rw [if_pos h]
      exact ih hp.2
    · rw [if_neg h]
      have ha : now < a.1 := by
        have : ¬ a.1 ≤ now := fun hc => h (decide_eq_true hc)
        exact lt_of_not_le this
      intro e he
      rcases List.mem_cons.mp he with rfl | hmem
      · exact ha
      · exact lt_of_lt_of_le ha (hp.1 e.1 (List.mem_map_of_mem Prod.fst hmem))

theorem takeWhile_eq_filter_sorted {now : Int} {l : List (Int × Option ℚ)}
    (hp : List.Pairwise (· ≤ ·) (l.map Prod.fst)) :
    l.takeWhile (tsLe now) = l.filter (tsLe now) := by
  conv_rhs => rw [← List.takeWhile_append_dropWhile (tsLe now) l]
  rw [List.filter_append]
  rw [List.filter_eq_self.mpr fun a ha => List.mem_takeWhile_imp ha]
  rw [List.filter_eq_nil_iff.mpr ?_, List.append_nil]
  intro a ha hc
  exact absurd (of_decide_eq_true hc) (not_le.mpr (dropWhile_gt_of_sorted hp a ha))

theorem pairwise_getLast?_max {l : List Int} (hp : l.Pairwise (· < ·)) {m : Int}
    (hm : l.getLast? = some m) : ∀ x ∈ l, x ≤ m := by
  induction l with
  | nil => simp at hm
  | cons a l ih =>
    rw [List.pairwise_cons] at hp
    cases l with
    | nil =>
      rw [List.getLast?_singleton] at hm
      intro x hx
      have hxa : x = a := by simpa using hx
      have ham : a = m := by injection hm
      rw [hxa, ham]
    | cons b l' =>
      rw [List.getLast?_cons_cons] at hm
      intro x hx
      rcases List.mem_cons.mp hx with rfl | hx
      · have hmem : m ∈ b :: l' := List.mem_of_getLast?_eq_some hm
        exact le_of_lt (hp.1 m hmem)
      · exact ih hp.2 hm x hx

theorem dapScan_append_le (now : Int) (A B : List (Int × Option ℚ))
    (lA : Int × Option ℚ) (hlA : A.getLast? = some lA)
    (h : ∀ e ∈ A, e.1 ≤ now) :
    ∀ st : ScanState,
      dapScan now st (A ++ B) =
        dapScan now ⟨lA.2, some lA.1, st.next_price, st.next_time⟩ B := by
  induction A with
  | nil => simp at hlA
  | cons a A ih =>
    intro st
    have ha : a.1 ≤ now := h a (List.mem_cons_self a A)
    rw [List.cons_append]
    have hstep : dapScan now st (a :: (A ++ B)) =
        dapScan now ⟨a.2, some a.1, st.next_price, st.next_time⟩ (A ++ B) := by
      simp [dapScan, ha]
    rw [hstep]
    cases A with
    | nil =>
      rw [List.getLast?_singleton] at hlA
      have : a = lA := by injection hlA
      subst this
      rfl
    | cons b A' =>
      rw [List.getLast?_cons_cons] at hlA
      exact ih hlA (fun e he => h e (List.mem_cons_of_mem a he)) _

theorem dapScan_gt_none (now : Int) (B : List (Int × Option ℚ)) :
    ∀ st : ScanState, st.current_price = none → (∀ e ∈ B, now < e.1) →
      dapScan now st B = st := by
  induction B with
  | nil => intro st _ _; rfl
  | cons b B ih =>
    intro st hcur h
    have hb : ¬ b.1 ≤ now := not_le.mpr (h b (List.mem_cons_self b B))
    have hres : dapScan now st (b :: B) = dapScan now st B := by
      simp [dapScan, hb, hcur]
    rw [hres]
    exact ih st hcur fun e he => h e (List.mem_cons_of_mem b he)

theorem dapScan_gt_cons_some (now : Int) (b : Int × Option ℚ)
    (B : List (Int × Option ℚ)) (st : ScanState)
    (hcur : st.current_price.isSome = true) (hnx : st.next_price = none)
    (hb : now < b.1) :
    dapScan now st (b :: B) = ⟨st.current_price, st.current_time, b.2, some b.1⟩ := by
  simp [dapScan, not_le.mpr hb, hcur, hnx]

theorem dapScan_sorted_empty (now : Int) (series : List (Int × Option ℚ))
    (hp : List.Pairwise (· < ·) (series.map Prod.fst))
    (hlast : (series.takeWhile (tsLe now)).getLast? = none) :
    dapScan now initScan series = initScan := by
  have hB : ∀ e ∈ series.dropWhile (tsLe now), now < e.1 :=
    dropWhile_gt_of_sorted (hp.imp le_of_lt)
  have hA : series.takeWhile (tsLe now) = [] := List.getLast?_eq_none_iff.mp hlast
  have hser : series.dropWhile (tsLe now) = series := by
    conv_rhs => rw [← List.takeWhile_append_dropWhile (tsLe now) series]
    rw [hA, List.nil_append]
  have hB' : ∀ e ∈ series, now < e.1 := by
    intro e he
    exact hB e (by rw [hser]; exact he)
  exact dapScan_gt_none now series initScan (by rfl) hB'

theorem dapScan_sorted_currentNull (now : Int) (series : List (Int × Option ℚ))
    (lA : Int × Option ℚ)
    (hp : List.Pairwise (· < ·) (series.map Prod.fst))
    (hlast : (series.takeWhile (tsLe now)).getLast? = some lA)
    (hv : lA.2 = none) :
    dapScan now initScan series = ⟨none, some lA.1, none, none⟩ := by
  have hB : ∀ e ∈ series.dropWhile (tsLe now), now < e.1 :=
    dropWhile_gt_of_sorted (hp.imp le_of_lt)
  have hstep : dapScan now initScan series =
      dapScan now ⟨lA.2, some lA.1, none, none⟩ (series.dropWhile (tsLe now)) := by
    conv_lhs => rw [← List.takeWhile_append_dropWhile (tsLe now) series]
    exact dapScan_append_le now _ _ lA hlast mem_takeWhile_tsLe initScan
  rw [hstep, hv]
  exact dapScan_gt_none now _ _ (by rfl) hB

theorem dapScan_sorted_noNext (now : Int) (series : List (Int × Option ℚ))
    (lA : Int × Option ℚ) (q : ℚ)
    (_hp : List.Pairwise (· < ·) (series.map Prod.fst))
    (hlast : (series.takeWhile (tsLe now)).getLast? = some lA)
    (hv : lA.2 = some q)
    (hd : series.dropWhile (tsLe now) = []) :
    dapScan now initScan series = ⟨some q, some lA.1, none, none⟩ := by
  have hstep : dapScan now initScan series =
      dapScan now ⟨lA.2, some lA.1, none, none⟩ (series.dropWhile (tsLe now)) := by
    conv_lhs => rw [← List.takeWhile_append_dropWhile (tsLe now) series]
    exact dapScan_append_le now _ _ lA hlast mem_takeWhile_tsLe initScan
  rw [hstep, hv, hd]
  rfl

theorem dapScan_sorted_next (now : Int) (series : List (Int × Option ℚ))
    (lA b : Int × Option ℚ) (B' : List (Int × Option ℚ)) (q : ℚ)
    (hp : List.Pairwise (· < ·) (series.map Prod.fst))
    (hlast : (series.takeWhile (tsLe now)).getLast? = some lA)
    (hv : lA.2 = some q)
    (hd : series.dropWhile (tsLe now) = b :: B') :
    dapScan now initScan series = ⟨some q, some lA.1, b.2, some b.1⟩ := by
  have hB : ∀ e ∈ series.dropWhile (tsLe now), now < e.1 :=
    dropWhile_gt_of_sorted (hp.imp le_of_lt)
  have hbgt : now < b.1 := hB b (by rw [hd]; exact List.mem_cons_self b B')
  have hstep : dapScan now initScan series =
      dapScan now ⟨lA.2, some lA.1, none, none⟩ (series.dropWhile (tsLe now)) := by
    conv_lhs => rw [← List.takeWhile_append_dropWhile (tsLe now) series]
    exact dapScan_append_le now _ _ lA hlast mem_takeWhile_tsLe initScan
  rw [hstep, hv, hd]
  exact dapScan_gt_cons_some now b B' _ (by rfl) rfl hbgt

theorem dapScan_current_price (now : Int) (series : List (Int × Option ℚ))
    (hp : List.Pairwise (· < ·) (series.map Prod.fst)) :
    (dapScan now initScan series).current_price =
      (series.takeWhile (tsLe now)).getLast?.bind Prod.snd := by
  cases hlast : (series.takeWhile (tsLe now)).getLast? with
  | none => rw [dapScan_sorted_empty now series hp hlast]; rfl
  | some lA =>
    cases hv : lA.2 with
    | none =>
      rw [dapScan_sorted_currentNull now series lA hp hlast hv]
      simp [hv]
    | some q =>
      cases hd : series.dropWhile (tsLe now) with
      | nil =>
        rw [dapScan_sorted_noNext now series lA q hp hlast hv hd]
        simp [hv]
      | cons b B' =>
        rw [dapScan_sorted_next now series lA b B' q hp hlast hv hd]
        simp [hv]

/-- C1 (counterexample): a non-empty price series whose single entry has
timestamp ≤ now (0 ≤ 0) but a null price still triggers the fallback
branch of `get_dap_data`, refuting "the fallback is taken if and only if
no entry in the series has timestamp ≤ now". -/
theorem c1_counterexample :
    ((0 : Int), (none : Option ℚ)) ∈ [((0 : Int), (none : Option ℚ))] ∧
    (0 : Int) ≤ 0 ∧
    dapFallbackTaken 0 [((0 : Int), (none : Option ℚ))] = true := by
  decide

/-- C1 (amended): for a price series with strictly increasing timestamps,
the fallback branch of `get_dap_data` is taken if and only if the series
is non-empty and the latest entry with timestamp ≤ now either does not
exist or carries a null price (i.e. among the entries with timestamp ≤
now, the last one yields no price). -/
theorem c1_fallback_iff (now : Int) (series : List (Int × Option ℚ))
    (hp : List.Pairwise (· < ·) (series.map Prod.fst)) :
    dapFallbackTaken now series = true ↔
      series ≠ [] ∧ (series.filter (tsLe now)).getLast?.bind Prod.snd = none := by
  simp only [dapFallbackTaken, Bool.and_eq_true, Option.isNone_iff_eq_none,
    decide_eq_true_eq, List.length_pos]
  rw [dapScan_current_price now series hp,
    ← takeWhile_eq_filter_sorted (hp.imp le_of_lt)]
  exact and_comm

/-- C1 witness: the amended equivalence evaluated on the concrete series
[(1, 5), (2, null)] at now = 10, where the fallback is taken because the
latest entry not beyond now carries a null price. -/
theorem c1_fallback_iff_witness :
    List.Pairwise (· < ·) ([((1 : Int), some (5 : ℚ)), (2, none)].map Prod.fst) ∧
    (dapFallbackTaken 10 [((1 : Int), some (5 : ℚ)), (2, none)] = true ↔
      [((1 : Int), some (5 : ℚ)), (2, none)] ≠ [] ∧
      ([((1 : Int), some (5 : ℚ)), (2, none)].filter (tsLe 10)).getLast?.bind Prod.snd = none) :=
  ⟨by decide, c1_fallback_iff 10 [((1 : Int), some (5 : ℚ)), (2, none)] (by decide)⟩

/-- C2 (counterexample): for the series [(100, 5)] (strictly increasing,
non-empty, fetch succeeded) with now = 0, the fallback selects the first
entry as `current`, whose timestamp 100 is not ≤ now, refuting "the
entry selected as current always has timestamp ≤ now". -/
theorem c2_counterexample :
    List.Pairwise (· < ·) ([((100 : Int), some (5 : ℚ))].map Prod.fst) ∧
    (selectPrices 0 [((100 : Int), some (5 : ℚ))]).current_time = some 100 ∧
    ¬ (100 : Int) ≤ 0 := by
  decide

/-- C2 (amended): for every price series with strictly increasing
timestamps containing at least one entry with timestamp ≤ now, the entry
selected as `current` by the selection of `get_dap_data` has timestamp ≤
now, and the entry selected as `next`, when present, has the smallest
series timestamp strictly greater than the `current` timestamp. -/
theorem c2_selection_correct (now : Int) (series : List (Int × Option ℚ))
    (hp : List.Pairwise (· < ·) (series.map Prod.fst))
    (hle : ∃ e ∈ series, e.1 ≤ now) :
    ∃ t, (selectPrices now series).current_time = some t ∧ t ≤ now ∧
      t ∈ series.map Prod.fst ∧
      ∀ t', (selectPrices now series).next_time = some t' →
        t < t' ∧ t' ∈ series.map Prod.fst ∧
          ∀ u ∈ series.map Prod.fst, t < u → t' ≤ u := by
  obtain ⟨e, he, hee⟩ := hle
  have hB : ∀ x ∈ series.dropWhile (tsLe now), now < x.1 :=
    dropWhile_gt_of_sorted (hp.imp le_of_lt)
  have hsplit := List.takeWhile_append_dropWhile (tsLe now) series
  have heA : e ∈ series.takeWhile (tsLe now) := by
    have hm : e ∈ series.takeWhile (tsLe now) ++ series.dropWhile (tsLe now) := by
      rw [hsplit]; exact he
    rcases List.mem_append.mp hm with h | h
    · exact h
    · exact absurd hee (not_le.mpr (hB e h))
  have hAne : series.takeWhile (tsLe now) ≠ [] := by
    intro h0
    rw [h0] at heA
    exact absurd heA (List.not_mem_nil e)
  obtain ⟨lA, hlast⟩ : ∃ lA, (series.takeWhile (tsLe now)).getLast? = some lA := by
    cases h : (series.takeWhile (tsLe now)).getLast? with
    | none => exact absurd (List.getLast?_eq_none_iff.mp h) hAne
    | some lA => exact ⟨lA, rfl⟩
  have hlAmem : lA ∈ series.takeWhile (tsLe now) := List.mem_of_getLast?_eq_some hlast
  have hlAle : lA.1 ≤ now := mem_takeWhile_tsLe lA hlAmem
  have hlAser : lA ∈ series := (List.takeWhile_sublist (tsLe now)).subset hlAmem
  have hmax : ∀ x ∈ series.takeWhile (tsLe now), x.1 ≤ lA.1 := by
    intro x hx
    have hpA : ((series.takeWhile (tsLe now)).map Prod.fst).Pairwise (· < ·) :=
      List.Pairwise.sublist ((List.takeWhile_sublist (tsLe now)).map Prod.fst) hp
    have hlastm : ((series.takeWhile (tsLe now)).map Prod.fst).getLast? = some lA.1 := by
      rw [List.getLast?_map, hlast]; rfl
    exact pairwise_getLast?_max hpA hlastm x.1 (List.mem_map_of_mem Prod.fst hx)
  cases hv : lA.2 with
  | some q =>
    have hcur : (dapScan now initScan series).current_price = some q := by
      rw [dapScan_current_price now series hp, hlast]
      simp [hv]
    have hfb : dapFallbackTaken now series = false := by
      simp [dapFallbackTaken, hcur]
    cases hd : series.dropWhile (tsLe now) with
    | nil =>
      have hsc := dapScan_sorted_noNext now series lA q hp hlast hv hd
      refine ⟨lA.1, ?_, hlAle, List.mem_map_of_mem Prod.fst hlAser, ?_⟩
      · simp [selectPrices, hfb, hsc]
      · intro t' ht'
        simp [selectPrices, hfb, hsc] at ht'
    | cons b B' =>
      have hsc := dapScan_sorted_next now series lA b B' q hp hlast hv hd
      have hbB : b ∈ series.dropWhile (tsLe now) := by
        rw [hd]; exact List.mem_cons_self b B'
      have hbser : b ∈ series := (List.dropWhile_sublist (tsLe now)).subset hbB
      have hbgt : now < b.1 := hB b hbB
      refine ⟨lA.1, ?_, hlAle, List.mem_map_of_mem Prod.fst hlAser, ?_⟩
      · simp [selectPrices, hfb, hsc]
      · intro t' ht'
        have ht'b : t' = b.1 := by
          simp [selectPrices, hfb, hsc] at ht'
          exact ht'.symm
        subst ht'b
        refine ⟨lt_of_le_of_lt hlAle hbgt, List.mem_map_of_mem Prod.fst hbser, ?_⟩
        intro u hu htu
        obtain ⟨x, hx, rfl⟩ := List.mem_map.mp hu
        have hmem : x ∈ series.takeWhile (tsLe now) ++ series.dropWhile (tsLe now) := by
          rw [hsplit]; exact hx
        rcases List.mem_append.mp hmem with hxa | hxb
        · exact absurd htu (not_lt.mpr (hmax x hxa))
        · rw [hd] at hxb
          rcases List.mem_cons.mp hxb with rfl | hxb'
          · exact le_refl x.1
          · have hpB : ((b :: B').map Prod.fst).Pairwise (· < ·) := by
              have hsub : (b :: B').Sublist series := by
                rw [← hd]; exact List.dropWhile_sublist (tsLe now)
              exact List.Pairwise.sublist (hsub.map Prod.fst) hp
            rw [List.map_cons, List.pairwise_cons] at hpB
            exact le_of_lt (hpB.1 x.1 (List.mem_map_of_mem Prod.fst hxb'))
  | none =>
    have hcur : (dapScan now initScan series).current_price = none := by
      rw [dapScan_current_price now series hp, hlast]
      simp [hv]
    have hserne : series ≠ [] := by
      intro h0
      rw [h0] at he
      exact absurd he (List.not_mem_nil e)
    have hfb : dapFallbackTaken now series = true := by
      simp [dapFallbackTaken, hcur, List.length_pos, hserne]
    obtain ⟨e0, rest, rfl⟩ : ∃ e0 rest, series = e0 :: rest := by
      cases series with
      | nil => exact absurd rfl hserne
      | cons e0 rest => exact ⟨e0, rest, rfl⟩
    have he0 : e0.1 ≤ now := by
      by_contra hc
      have hts : tsLe now e0 = false := by
        simp [tsLe]
        exact lt_of_not_le hc
      rw [List.takeWhile_cons, hts] at hAne
      simp at hAne
    have hsc := dapScan_sorted_currentNull now (e0 :: rest) lA hp hlast hv
    cases rest with
    | nil =>
      refine ⟨e0.1, ?_, he0, by simp, ?_⟩
      · simp [selectPrices, hfb, hsc]
      · intro t' ht'
        simp [selectPrices, hfb, hsc] at ht'
    | cons e1 rest' =>
      have hpser := hp
      rw [List.map_cons, List.map_cons, List.pairwise_cons] at hpser
      refine ⟨e0.1, ?_, he0, by simp, ?_⟩
      · simp [selectPrices, hfb]
      · intro t' ht'
        have ht'e1 : t' = e1.1 := by
          simp [selectPrices, hfb] at ht'
          exact ht'.symm
        subst ht'e1
        refine ⟨hpser.1 e1.1 (by simp), by simp, ?_⟩
        intro u hu htu
        rw [List.map_cons, List.map_cons] at hu
        rcases List.mem_cons.mp hu with rfl | hu1
        · exact absurd htu (lt_irrefl e0.1)
        · rcases List.mem_cons.mp hu1 with rfl | hu2
          · exact le_refl e1.1
          · have hpt := hpser.2
            rw [List.pairwise_cons] at hpt
            exact le_of_lt (hpt.1 u hu2)

/-- C2 witness: the amended selection property evaluated on the spec's
scenario, series [(100, 30), (200, 31), (300, 32)] at now = 150. -/
theorem c2_selection_correct_witness :
    List.Pairwise (· < ·)
      ([((100 : Int), some (30 : ℚ)), (200, some 31), (300, some 32)].map Prod.fst) ∧
    (∃ e ∈ [((100 : Int), some (30 : ℚ)), (200, some 31), (300, some 32)], e.1 ≤ 150) ∧
    (∃ t, (selectPrices 150
        [((100 : Int), some (30 : ℚ)), (200, some 31), (300, some 32)]).current_time = some t ∧
      t ≤ 150 ∧
      t ∈ [((100 : Int), some (30 : ℚ)), (200, some 31), (300, some 32)].map Prod.fst ∧
      ∀ t', (selectPrices 150
          [((100 : Int), some (30 : ℚ)), (200, some 31), (300, some 32)]).next_time = some t' →
        t < t' ∧
        t' ∈ [((100 : Int), some (30 : ℚ)), (200, some 31), (300, some 32)].map Prod.fst ∧
          ∀ u ∈ [((100 : Int), some (30 : ℚ)), (200, some 31), (300, some 32)].map Prod.fst,
            t < u → t' ≤ u) :=
  ⟨by decide, by decide,
    c2_selection_correct 150 [((100 : Int), some (30 : ℚ)), (200, some 31), (300, some 32)]
      (by decide) (by decide)⟩

theorem renScan_append_le (now : Int) (A B : List (Int × Option ℚ))
    (h : ∀ e ∈ A, e.1 ≤ now) :
    ∀ acc : Option ℚ,
      renScan now acc (A ++ B) =
        renScan now (((A.filterMap Prod.snd).getLast?).or acc) B := by
  induction A with
  | nil => intro acc; rfl
  | cons a A ih =>
    intro acc
    have ha : a.1 ≤ now := h a (List.mem_cons_self a A)
    have hstep : renScan now acc ((a :: A) ++ B) =
        renScan now (match a.2 with | some x => some x | none => acc) (A ++ B) := by
      simp [renScan, ha]
    rw [hstep, ih (fun e he => h e (List.mem_cons_of_mem a he))]
    congr 1
    cases hv : a.2 with
    | none => simp [List.filterMap_cons, hv]
    | some x =>
      simp only [List.filterMap_cons, hv]
      cases hL : A.filterMap Prod.snd with
      | nil => simp
      | cons y ys =>
        rw [List.getLast?_cons_cons]
        cases h2 : (y :: ys).getLast? with
        | none => exact absurd (List.getLast?_eq_none_iff.mp h2) (by simp)
        | some m => rfl

theorem renScan_stop (now : Int) (B : List (Int × Option ℚ)) (acc : Option ℚ)
    (hB : ∀ e ∈ B, now < e.1) :
    renScan now acc B = acc := by
  cases B with
  | nil => rfl
  | cons b B' =>
    have hb : ¬ b.1 ≤ now := not_le.mpr (hB b (List.mem_cons_self b B'))
    simp [renScan, hb]

/-- C3: for a time-ordered (ascending) renewable series, the selector of
`fetch_renewable_share_forecast` returns exactly the share value of the
latest entry with a non-null share and timestamp ≤ now (the last non-null
value among the entries not beyond now), and `none` when no such entry
exists — in particular a null share at the latest matching timestamp is
skipped in favour of the latest earlier valid value. -/
theorem c3_renewable_selection (now : Int) (data : RenApiData)
    (hp : List.Pairwise (· ≤ ·) ((data.unix_seconds.zip data.ren_share).map Prod.fst)) :
    fetch_renewable_share_forecast now (.success data) =
      (((data.unix_seconds.zip data.ren_share).filter (tsLe now)).filterMap
        Prod.snd).getLast? := by
  rw [← takeWhile_eq_filter_sorted hp]
  have hred : fetch_renewable_share_forecast now (.success data) =
      if (data.unix_seconds.isEmpty || data.ren_share.isEmpty) = true then none
      else renScan now none (data.unix_seconds.zip data.ren_share) := rfl
  rw [hred]
  by_cases h : (data.unix_seconds.isEmpty || data.ren_share.isEmpty) = true
  · rw [if_pos h]
    have hzip : data.unix_seconds.zip data.ren_share = [] := by
      rcases Bool.or_eq_true _ _ ▸ h with h1 | h1
      · rw [List.isEmpty_iff.mp h1, List.zip_nil_left]
      · rw [List.isEmpty_iff.mp h1, List.zip_nil_right]
    rw [hzip]
    rfl
  · rw [if_neg h]
    have hA : ∀ e ∈ (data.unix_seconds.zip data.ren_share).takeWhile (tsLe now),
        e.1 ≤ now := mem_takeWhile_tsLe
    have hB : ∀ e ∈ (data.unix_seconds.zip data.ren_share).dropWhile (tsLe now),
        now < e.1 := dropWhile_gt_of_sorted hp
    conv_lhs =>
      rw [← List.takeWhile_append_dropWhile (tsLe now) (data.unix_seconds.zip data.ren_share)]
    rw [renScan_append_le now _ _ hA none, renScan_stop now _ _ hB, Option.or_none]

/-- C3 witness: the selection evaluated on the spec's scenario — a null
share at the latest matching timestamp (10 ≤ now = 10) and a valid
earlier entry (share 42 at timestamp 0), with a future entry beyond. -/
theorem c3_renewable_selection_witness :
    List.Pairwise (· ≤ ·)
      (((RenApiData.mk [0, 10, 100] [some 42, none, some 7]).unix_seconds.zip
        (RenApiData.mk [0, 10, 100] [some 42, none, some 7]).ren_share).map Prod.fst) ∧
    fetch_renewable_share_forecast 10
        (.success (RenApiData.mk [0, 10, 100] [some 42, none, some 7])) =
      ((((RenApiData.mk [0, 10, 100] [some 42, none, some 7]).unix_seconds.zip
          (RenApiData.mk [0, 10, 100] [some 42, none, some 7]).ren_share).filter
        (tsLe 10)).filterMap Prod.snd).getLast? :=
  ⟨by decide, c3_renewable_selection 10 (RenApiData.mk [0, 10, 100] [some 42, none, some 7])
    (by decide)⟩

/-- C4: when the price fetch failed (`None`) or either parallel array is
empty, `get_dap_data` returns "N/A" for all four display fields, and in
every case — data available or not — the `show` field equals
`settings.get('showPriceData') == 'true'`. -/
theorem c4_unavailable_placeholders :
    (∀ (settings : String → Option String) (sym : String) (rdf : String → String)
        (off : Int → Int) (now : Int),
      get_dap_data settings sym rdf off now none =
        ⟨settings "showPriceData" == some "true", none, sym, "N/A", "N/A", "N/A", "N/A"⟩) ∧
    (∀ (settings : String → Option String) (sym : String) (rdf : String → String)
        (off : Int → Int) (now : Int) (li : String) (us : List Int) (u : String) (dep : Bool),
      get_dap_data settings sym rdf off now (some ⟨li, us, [], u, dep⟩) =
        ⟨settings "showPriceData" == some "true", none, sym, "N/A", "N/A", "N/A", "N/A"⟩) ∧
    (∀ (settings : String → Option String) (sym : String) (rdf : String → String)
        (off : Int → Int) (now : Int) (li : String) (ps : List (Option ℚ)) (u : String)
        (dep : Bool),
      get_dap_data settings sym rdf off now (some ⟨li, [], ps, u, dep⟩) =
        ⟨settings "showPriceData" == some "true", none, sym, "N/A", "N/A", "N/A", "N/A"⟩) ∧
    (∀ (settings : String → Option String) (sym : String) (rdf : String → String)
        (off : Int → Int) (now : Int) (pd : Option PriceApiData),
      (get_dap_data settings sym rdf off now pd).show_field =
        (settings "showPriceData" == some "true")) := by
  refine ⟨fun _ _ _ _ _ => rfl, fun _ _ _ _ _ _ _ _ _ => rfl, ?_, ?_⟩
  · intro settings sym rdf off now li ps u dep
    simp [get_dap_data]
  · intro settings sym rdf off now pd
    cases pd with
    | none => rfl
    | some pd =>
      by_cases h : (pd.price.isEmpty || pd.unix_seconds.isEmpty) = true
      · simp [get_dap_data, h]
      · simp [get_dap_data, h]

/-- C5: each of the three fetch error outcomes (network timeout,
transport error, malformed JSON body) makes both fetchers return the
single "no data" outcome `none` — the exceptions are caught inside the
fetchers — and the resulting tile sections built from those outcomes
carry only "N/A" placeholders. -/
theorem c5_fetch_errors_fold_to_none :
    (fetch_price_data .timeout = none ∧
      fetch_price_data .transportError = none ∧
      fetch_price_data .malformedJson = none) ∧
    (∀ now : Int,
      fetch_renewable_share_forecast now .timeout = none ∧
      fetch_renewable_share_forecast now .transportError = none ∧
      fetch_renewable_share_forecast now .malformedJson = none) ∧
    (∀ (settings : String → Option String) (sym : String) (rdf : String → String)
        (off : Int → Int) (now : Int),
      get_dap_data settings sym rdf off now (fetch_price_data .timeout) =
        ⟨settings "showPriceData" == some "true", none, sym, "N/A", "N/A", "N/A", "N/A"⟩ ∧
      get_dap_data settings sym rdf off now (fetch_price_data .transportError) =
        ⟨settings "showPriceData" == some "true", none, sym, "N/A", "N/A", "N/A", "N/A"⟩ ∧
      get_dap_data settings sym rdf off now (fetch_price_data .malformedJson) =
        ⟨settings "showPriceData" == some "true", none, sym, "N/A", "N/A", "N/A", "N/A"⟩) ∧
    (∀ (settings : String → Option String) (rdf : Option (String → String))
        (desc : String) (now : Int),
      (get_renewable_data settings rdf desc
          (fetch_renewable_share_forecast now .timeout)).percentage = "N/A" ∧
      (get_renewable_data settings rdf desc
          (fetch_renewable_share_forecast now .transportError)).percentage = "N/A" ∧
      (get_renewable_data settings rdf desc
          (fetch_renewable_share_forecast now .malformedJson)).percentage = "N/A") :=
  ⟨⟨rfl, rfl, rfl⟩, fun _ => ⟨rfl, rfl, rfl⟩,
    fun _ _ _ _ _ => ⟨rfl, rfl, rfl⟩, fun _ _ _ _ => ⟨rfl, rfl, rfl⟩⟩

/-- C6: on a successful price fetch with a non-empty price list, every
non-null price is scaled from EUR/MWh to Cent/kWh by multiplying by 0.1
and rounding to 2 decimals, the unit is tagged "Cent / kWh", every null
price stays null (never coerced to zero), and input 100.0 yields 10.0. -/
theorem c6_price_scaling :
    (∀ (li : String) (us : List Int) (u : String) (dep : Bool) (p : Option ℚ)
        (ps : List (Option ℚ)),
      fetch_price_data (.success ⟨li, us, p :: ps, u, dep⟩) =
        some ⟨li, us, (p :: ps).map (Option.map fun x => round2 (x * (1/10))),
          "Cent / kWh", dep⟩) ∧
    (∀ (l : List (Option ℚ)) (i : Nat), l[i]? = some none →
      (l.map (Option.map fun x => round2 (x * (1/10))))[i]? = some none) ∧
    (∀ (l : List (Option ℚ)) (i : Nat) (x : ℚ), l[i]? = some (some x) →
      (l.map (Option.map fun x => round2 (x * (1/10))))[i]? =
        some (some (round2 (x * (1/10))))) ∧
    round2 ((100 : ℚ) * (1/10)) = 10 := by
  refine ⟨?_, ?_, ?_, ?_⟩
  · intro li us u dep p ps
    simp [fetch_price_data]
  · intro l i h
    rw [List.getElem?_map, h]
    rfl
  · intro l i x h
    rw [List.getElem?_map, h]
    rfl
  · have harg : (100 : ℚ) * (1/10) * 100 = 1000 := by norm_num
    have h1000 : roundHalfEven ((1000 : ℚ)) = 1000 := by
      simp only [roundHalfEven]
      norm_num
    simp only [round2]
    rw [harg, h1000]
    norm_num

/-- C6 witness: the scaling applied to the concrete price list
[null, 100]: the null entry stays null and 100.0 EUR/MWh becomes
10.0 Cent/kWh. -/
theorem c6_price_scaling_witness :
    ([none, some 100] : List (Option ℚ))[0]? = some none ∧
    (([none, some 100] : List (Option ℚ)).map
      (Option.map fun x => round2 (x * (1/10))))[0]? = some none ∧
    ([none, some 100] : List (Option ℚ))[1]? = some (some 100) ∧
    (([none, some 100] : List (Option ℚ)).map
      (Option.map fun x => round2 (x * (1/10))))[1]? =
        some (some (round2 ((100 : ℚ) * (1/10)))) :=
  ⟨rfl, c6_price_scaling.2.1 [none, some 100] 0 rfl, rfl,
    c6_price_scaling.2.2.1 [none, some 100] 1 100 rfl⟩

/-- C7: whenever the selection yields a non-absent current/next price,
`get_dap_data` displays it as the value divided by 100, formatted to 3
decimals, passed through the decimal-separator replacement, followed by a
single space and the currency symbol; selected times are displayed as
`%H:%M` in the reference timezone; concretely, euro value 0.305 with
decimal sign "," and symbol "€" renders "0,305 €". -/
theorem c7_price_formatting (settings : String → Option String) (sym : String)
    (rdf : String → String) (off : Int → Int) (now : Int) (pd : PriceApiData)
    (hne : (pd.price.isEmpty || pd.unix_seconds.isEmpty) = false) :
    (∀ p : ℚ, (selectPrices now (pd.unix_seconds.zip pd.price)).current_price = some p →
      (get_dap_data settings sym rdf off now (some pd)).current_price =
        rdf (formatFixed (p / 100) 3) ++ " " ++ sym) ∧
    (∀ p : ℚ, (selectPrices now (pd.unix_seconds.zip pd.price)).next_price = some p →
      (get_dap_data settings sym rdf off now (some pd)).next_price =
        rdf (formatFixed (p / 100) 3) ++ " " ++ sym) ∧
    (∀ t : Int, (selectPrices now (pd.unix_seconds.zip pd.price)).current_time = some t →
      (get_dap_data settings sym rdf off now (some pd)).current_time =
        formatHM (localHM off t)) ∧
    (∀ t : Int, (selectPrices now (pd.unix_seconds.zip pd.price)).next_time = some t →
      (get_dap_data settings sym rdf off now (some pd)).next_time =
        formatHM (localHM off t)) ∧
    replaceDecStr "," (formatFixed (((61 : ℚ)/2) / 100) 3) ++ " " ++ "€" = "0,305 €" := by
  refine ⟨?_, ?_, ?_, ?_, ?_⟩
  · intro p hp
    simp [get_dap_data, hne, hp]
  · intro p hp
    simp [get_dap_data, hne, hp]
  · intro t ht
    simp [get_dap_data, hne, ht]
  · intro t ht
    simp [get_dap_data, hne, ht]
  · have harg : ((61 : ℚ)/2) / 100 * (10 : ℚ) ^ 3 = 305 := by norm_num
    have h305 : roundHalfEven ((305 : ℚ)) = 305 := by
      simp only [roundHalfEven]
      norm_num
    have hff : formatFixed (((61 : ℚ)/2) / 100) 3 = "0.305" := by
      simp only [formatFixed]
      rw [harg, h305]
      decide
    rw [hff]
    decide

/-- C7 witness: the formatting pipeline evaluated on the concrete series
[(0, 30.5 Cent/kWh)] at now = 0 with decimal sign "," and symbol "€",
with CET offset 3600 s: the displayed current price is "0,305 €"
and the displayed current time is "01:00". -/
theorem c7_price_formatting_witness :
    ((PriceApiData.mk "" [0] [some ((61 : ℚ)/2)] "" false).price.isEmpty ||
      (PriceApiData.mk "" [0] [some ((61 : ℚ)/2)] "" false).unix_seconds.isEmpty) = false ∧
    (get_dap_data (fun _ => none) "€" (replaceDecStr ",") (fun _ => 3600) 0
        (some (PriceApiData.mk "" [0] [some ((61 : ℚ)/2)] "" false))).current_price =
      "0,305 €" ∧
    (get_dap_data (fun _ => none) "€" (replaceDecStr ",") (fun _ => 3600) 0
        (some (PriceApiData.mk "" [0] [some ((61 : ℚ)/2)] "" false))).current_time =
      "01:00" := by
  have h := c7_price_formatting (fun _ => none) "€" (replaceDecStr ",") (fun _ => 3600) 0
    (PriceApiData.mk "" [0] [some ((61 : ℚ)/2)] "" false) (by decide)
  refine ⟨by decide, ?_, ?_⟩
  · rw [h.1 ((61 : ℚ)/2) rfl]
    exact h.2.2.2.2
  · rw [h.2.2.1 0 rfl]
    decide

/-- C8: an available renewable share is displayed as the value formatted
to 1 decimal place, passed through the decimal replacement when provided,
with " %" appended; an unavailable share is displayed as "N/A";
concretely 42.37 renders "42,4 %" with the "de" decimal sign and
"42.4 %" otherwise. -/
theorem c8_renewable_formatting :
    (∀ (settings : String → Option String) (desc : String) (g : String → String) (v : ℚ),
      (get_renewable_data settings (some g) desc (some v)).percentage =
        g (formatFixed v 1) ++ " %") ∧
    (∀ (settings : String → Option String) (desc : String) (v : ℚ),
      (get_renewable_data settings none desc (some v)).percentage =
        formatFixed v 1 ++ " %") ∧
    (∀ (settings : String → Option String) (rdf : Option (String → String)) (desc : String),
      (get_renewable_data settings rdf desc none).percentage = "N/A") ∧
    (get_renewable_data (fun _ => none) (some (replaceDecStr (descimalSign "de")))
      "Anteil EEG" (some ((4237 : ℚ)/100))).percentage = "42,4 %" ∧
    (get_renewable_data (fun _ => none) (some (replaceDecStr (descimalSign "en")))
      "Anteil EEG" (some ((4237 : ℚ)/100))).percentage = "42.4 %" := by
  have harg : (4237 : ℚ)/100 * (10 : ℚ) ^ 1 = 4237/10 := by norm_num
  have hfl : ⌊(4237/10 : ℚ)⌋ = 423 := by norm_num
  have hrh : roundHalfEven ((4237 : ℚ)/10) = 424 := by
    simp only [roundHalfEven]
    rw [hfl]
    norm_num
  have hff : formatFixed ((4237 : ℚ)/100) 1 = "42.4" := by
    simp only [formatFixed]
    rw [harg, hrh]
    decide
  refine ⟨fun _ _ _ _ => rfl, fun _ _ _ => rfl, fun _ _ _ => rfl, ?_, ?_⟩
  · have hred : (get_renewable_data (fun _ => none)
        (some (replaceDecStr (descimalSign "de"))) "Anteil EEG"
        (some ((4237 : ℚ)/100))).percentage =
        replaceDecStr (descimalSign "de") (formatFixed ((4237 : ℚ)/100) 1) ++ " %" := rfl
    rw [hred, hff]
    decide
  · have hred : (get_renewable_data (fun _ => none)
        (some (replaceDecStr (descimalSign "en"))) "Anteil EEG"
        (some ((4237 : ℚ)/100))).percentage =
        replaceDecStr (descimalSign "en") (formatFixed ((4237 : ℚ)/100) 1) ++ " %" := rfl
    rw [hred, hff]
    decide

/-- C9: `replace_decimals` substitutes every "." in a string input with
the configured decimal sign — "," when the country setting is "de" and
"." otherwise — and returns every non-string input unchanged. -/
theorem c9_replace_decimals :
    (∀ (sign : String) (s : String),
      replace_decimals sign (.str s) =
        .str ⟨s.data.flatMap fun c => if c = '.' then sign.data else [c]⟩) ∧
    (∀ (sign : String) (n : Int), replace_decimals sign (.int n) = .int n) ∧
    (∀ (sign : String) (q : ℚ), replace_decimals sign (.float q) = .float q) ∧
    (∀ sign : String, replace_decimals sign .pynone = .pynone) ∧
    descimalSign "de" = "," ∧
    (∀ c : String, c ≠ "de" → descimalSign c = ".") ∧
    replace_decimals (descimalSign "de") (.str "0.305") = .str "0,305" := by
  refine ⟨?_, fun _ _ => rfl, fun _ _ => rfl, fun _ => rfl, by decide, ?_, by decide⟩
  · intro sign s
    simp only [replace_decimals, replaceDecStr, replaceDotChars_eq_flatMap]
  · intro c hc
    simp [descimalSign, hc]

/-- C9 witness: the "otherwise" branch of the decimal-sign selection
evaluated at the concrete non-"de" country "en". -/
theorem c9_replace_decimals_witness :
    ("en" : String) ≠ "de" ∧ descimalSign "en" = "." :=
  ⟨by decide, c9_replace_decimals.2.2.2.2.2.1 "en" (by decide)⟩

/-- C10: the renewable section's `show` field equals
`settings.get('dapCountry') == 'DE-LU'` for every fetch outcome —
success, unavailable or failure — so the renewable display toggle is
keyed to the price-zone setting, not to data availability. -/
theorem c10_renewable_show_flag :
    ∀ (settings : String → Option String) (rdf : Option (String → String))
      (desc : String) (now : Int) (o : FetchOutcome RenApiData),
      ((get_renewable_data settings rdf desc
          (fetch_renewable_share_forecast now o)).show_field =
        (settings "dapCountry" == some "DE-LU")) ∧
      ((get_renewable_data settings rdf desc
          (fetch_renewable_share_forecast now o)).show_field = true ↔
        settings "dapCountry" = some "DE-LU") := by
  intro settings rdf desc now o
  constructor
  · rfl
  · simp [get_renewable_data]
